import Mathlib

/-
Verification of the snapchat_data_handler repository against its
natural-language specification.

The development shallowly embeds the parts of `extract_memories.py` (and its
`extract_memories_only_local.py` near-duplicate) that the claims concern:

 * archive-member classification and grouping (`download_and_process`,
   lines 599-613),
 * the per-group compositing pipeline for image and video mains
   (lines 628-734), with the effectful pieces (zip reads, PIL decoding,
   alpha compositing, JPEG encoding, ffmpeg invocations, commits)
   abstracted into an environment of functions returning `Option`
   (`none` models a raised exception / non-zero exit of that step),
 * the destination sync logic `save_or_upload_bytes` (lines 209-277)
   over an explicit Google-Drive state (object store plus the
   `GDRIVE_EXISTING` name index) and a local file map,
 * the metadata embedder `write_file_metadata` (lines 483-554), with each
   strategy's success abstracted to a boolean,
 * the `CONFLICT_MODE == 'new'` pre-filter (lines 403-426) and the main
   download loop and report (lines 760-778).

Bytes and decoded images are abstracted to `Nat` values; only their
identity flow matters to the claims.
-/

namespace SnapExtract

/-! ## String helpers mirroring `pathlib` behaviour -/

/-- Split a character list on `/` separators. -/
def splitOnSlash : List Char → List (List Char)
  | [] => [[]]
  | c :: rest =>
    match splitOnSlash rest with
    | [] => [[c]]
    | g :: gs => if c = '/' then [] :: g :: gs else (c :: g) :: gs

/-- Last path component, as `pathlib.Path(member).name` computes it for the
slash-separated names found in zip archives. -/
def lastComponent (s : String) : String :=
  String.mk (((splitOnSlash s.toList).filter (fun p => p ≠ [])).getLastD [])

/-- The extension of a file name, lowercased, following CPython's
`PurePath.suffix`: nonempty exactly when the last dot sits strictly inside
the name (not first, not last character). -/
def extOfName (nm : String) : String :=
  let cs := nm.toList
  let tl := cs.reverse.takeWhile (fun c => c ≠ '.')
  if tl.length = cs.length then ""
  else if cs.length - tl.length - 1 = 0 ∨ tl.length = 0 then ""
  else String.mk (('.' :: tl.reverse).map Char.toLower)

/-- `nm[: -len(ext)] if ext else nm`: the name with its extension stripped,
original case preserved. -/
def stripExtension (nm : String) : String :=
  let e := extOfName nm
  if e = "" then nm
  else String.mk (nm.toList.take (nm.toList.length - e.toList.length))

/-- Substring test on character lists. -/
def listContains (pat : List Char) : List Char → Bool
  | [] => pat.isEmpty
  | c :: rest => pat.isPrefixOf (c :: rest) || listContains pat rest

/-- Case-insensitive substring test: `pat.lower() in s.lower()`. -/
def containsCI (s : String) (pat : String) : Bool :=
  listContains (pat.toList.map Char.toLower) (s.toList.map Char.toLower)

/-- Helper for `markerBase`: consume characters of the stripped name one by
one (they must be non-newline, as the regex dot requires); after each
consumed character check whether the remainder starts, case-insensitively,
with `-main` or `-overlay`.  The first success yields the lazily-minimal
group of `re.match(r'(.+?)-(?:main|overlay)', name, re.I)`. -/
def markerFrom : List Char → List Char → Option String
  | _, [] => none
  | acc, c :: rest =>
    if c = '\n' then none
    else
      let acc2 := acc ++ [c]
      if ("-main".toList.isPrefixOf (rest.map Char.toLower)
          || "-overlay".toList.isPrefixOf (rest.map Char.toLower))
      then some (String.mk acc2)
      else markerFrom acc2 rest

/-- `m.group(1)` of `re.match(r'(.+?)-(?:main|overlay)', name_no_ext, re.I)`,
or `none` when the regex does not match. -/
def markerBase (s : String) : Option String :=
  markerFrom [] s.toList

/-! ## Archive member classification (`download_and_process`, lines 599-613) -/

inductive Role where
  | main
  | overlay
deriving DecidableEq, Repr

/-- Lowercased extension of an archive member's final path component, the
value the source computes as `Path(member).suffix.lower()`. -/
def memberExt (member : String) : String :=
  extOfName (lastComponent member)

/-- Classification of one archive member, following lines 602-613 of
`extract_memories.py`: strip the extension, match the role-marker regex,
then admit the member as a main only for `.jpg`/`.jpeg`/`.mp4` extensions
and as an overlay only for `.png`; anything else is ignored (`none`). -/
def classifyMember (member : String) : Option (String × Role) :=
  let nm := lastComponent member
  let ext := extOfName nm
  let nne := stripExtension nm
  match markerBase nne with
  | none => none
  | some b =>
    if containsCI nne "-main" && (ext == ".jpg" || ext == ".jpeg" || ext == ".mp4") then
      some (b, Role.main)
    else if containsCI nne "-overlay" && ext == ".png" then
      some (b, Role.overlay)
    else none

/-- Association-list lookup with plain string equality (Python dict read). -/
def lookupA {β : Type} (k : String) : List (String × β) → Option β
  | [] => none
  | (a, b) :: rest => if a = k then some b else lookupA k rest

/-- `mains[base] = member`: replace in place keeping the entry's position,
or append a fresh entry, exactly like assignment into a Python dict. -/
def insertMain : List (String × String) → String → String → List (String × String)
  | [], b, v => [(b, v)]
  | (k, w) :: rest, b, v =>
    if k = b then (b, v) :: rest else (k, w) :: insertMain rest b v

/-- `overlays.setdefault(base, []).append(member)`. -/
def insertOverlay : List (String × List String) → String → String → List (String × List String)
  | [], b, v => [(b, [v])]
  | (k, ws) :: rest, b, v =>
    if k = b then (k, ws ++ [v]) :: rest else (k, ws) :: insertOverlay rest b v

/-- One iteration of the member-collection loop. -/
def collectStep (acc : List (String × String) × List (String × List String))
    (m : String) : List (String × String) × List (String × List String) :=
  match classifyMember m with
  | some (b, Role.main) => (insertMain acc.1 b m, acc.2)
  | some (b, Role.overlay) => (acc.1, insertOverlay acc.2 b m)
  | none => acc

/-- The `mains` and `overlays` dictionaries built from `z.namelist()`. -/
def collectMembers (ms : List String) :
    List (String × String) × List (String × List String) :=
  ms.foldl collectStep ([], [])

/-! ## Claim C4 -/

/-- C4: every archive member has its extension stripped and the main/overlay
role marker matched case-insensitively in the remaining name, grouping by
the text preceding the marker; the member is classified Main only if its
extension is `.jpg`/`.jpeg`/`.mp4`, Overlay only if it is `.png`; a member
matching neither pattern, or with an unsupported extension, is ignored
(the grouping state is left unchanged, no error is raised); and the
matching is case-insensitive, as the `ABC-MAIN.JPG` instance shows. -/
theorem c4_member_classification :
    (∀ m b, classifyMember m = some (b, Role.main) →
      memberExt m = ".jpg" ∨ memberExt m = ".jpeg" ∨ memberExt m = ".mp4") ∧
    (∀ m b, classifyMember m = some (b, Role.overlay) → memberExt m = ".png") ∧
    (∀ m b r, classifyMember m = some (b, r) →
      markerBase (stripExtension (lastComponent m)) = some b) ∧
    (∀ acc m, classifyMember m = none → collectStep acc m = acc) ∧
    classifyMember "ABC-MAIN.JPG" = some ("ABC", Role.main) := by
  refine ⟨?_, ?_, ?_, ?_, by decide⟩
  · intro m b h
    simp only [classifyMember] at h
    unfold memberExt
    cases hm : markerBase (stripExtension (lastComponent m)) with
    | none => simp only [hm] at h; exact Option.noConfusion h
    | some bb =>
      simp only [hm] at h
      split_ifs at h with h1 h2
      · simp only [Bool.and_eq_true, Bool.or_eq_true, beq_iff_eq] at h1
        exact or_assoc.mp h1.2
      · exact absurd h (by simp)
  · intro m b h
    simp only [classifyMember] at h
    unfold memberExt
    cases hm : markerBase (stripExtension (lastComponent m)) with
    | none => simp only [hm] at h; exact Option.noConfusion h
    | some bb =>
      simp only [hm] at h
      split_ifs at h with h1 h2
      · exact absurd h (by simp)
      · simp only [Bool.and_eq_true, beq_iff_eq] at h2
        exact h2.2
  · intro m b r h
    simp only [classifyMember] at h
    cases hm : markerBase (stripExtension (lastComponent m)) with
    | none => simp only [hm] at h; exact Option.noConfusion h
    | some bb =>
      simp only [hm] at h
      split_ifs at h with h1 h2
      · obtain ⟨hb, _⟩ : bb = b ∧ Role.main = r := by simpa using h
        rw [hb]
      · obtain ⟨hb, _⟩ : bb = b ∧ Role.overlay = r := by simpa using h
        rw [hb]
  · intro acc m h
    unfold collectStep
    rw [h]

/-- Witness for C4: instantiates the first conjunct at `x-main.jpg`. -/
theorem c4_member_classification_witness :
    memberExt "x-main.jpg" = ".jpg" ∨ memberExt "x-main.jpg" = ".jpeg" ∨
      memberExt "x-main.jpg" = ".mp4" :=
  c4_member_classification.1 "x-main.jpg" "x" (by decide)

/-! ## The zip-processing pipeline (`download_and_process`, lines 592-735)

Effectful steps are abstracted into an environment `ZEnv`; `none` models a
raised exception or a non-zero subprocess exit at that step.  Archive bytes
and decoded images are `Nat` values.  `ffmpeg_path` availability is a
separate argument, as in the source where it is a local of the zip branch. -/

structure ZEnv where
  readMember : String → Option Nat
  decodeImage : Nat → Option Nat
  alphaComposite : Nat → Nat → Option Nat
  encodeJpeg : Nat → Nat
  runFfmpeg : Nat → Nat → Option Nat
  commit : String → Nat → Option (String × Nat)

/-- Diagnostic printed when the zip has no `-main` member at all (line 616). -/
def noMainLog : String := "No -main JPG/MP4 files found in zip"

/-- Diagnostic for a failed read of a main member (line 633). -/
def readFailLog (m : String) : String := "Failed reading main member " ++ m

/-- Diagnostic for an unsupported main extension (line 733). -/
def unsupportedLog (m : String) : String := "Unsupported main file type in zip: " ++ m

/-- Diagnostic for a video overlay that fails to decode as an image and is
skipped (line 695). -/
def videoSkipLog (m : String) : String :=
  "Failed to decode overlay " ++ m ++ " as image, skipping it"

/-- Fatal diagnostic for an image overlay read/decode/composite failure
(line 657). -/
def imageOverlayFailLog (m : String) : String :=
  "Failed reading or applying overlay " ++ m

/-- Fatal diagnostic for an image-main decode or encode failure (line 669). -/
def imageFailLog (m : String) : String :=
  "Failed compositing overlays for image " ++ m

/-- Fatal diagnostic for a failed read of a video overlay (line 718). -/
def videoReadFailLog (m : String) : String := "Failed processing overlay " ++ m

/-- Fatal diagnostic for a non-zero ffmpeg exit (line 713). -/
def ffmpegFailLog (m : String) : String := "ffmpeg failed overlaying " ++ m

/-- Fatal diagnostic when ffmpeg is missing and a video main is hit
(line 675). -/
def ffmpegMissingLog : String :=
  "ffmpeg is required to composite overlays onto MP4 files but was not found in PATH"

/-- Fatal diagnostic for a failed commit of a group's output. -/
def commitFailLog (f : String) : String := "Failed saving or uploading " ++ f

/-- The image-main overlay loop (lines 650-659): read each overlay member,
decode it, alpha-composite it on top; any failure is fatal, carrying the
diagnostic of line 657. -/
def imageOverlayLoop (env : ZEnv) : Nat → List String → Except String Nat
  | img, [] => Except.ok img
  | img, om :: rest =>
    match env.readMember om with
    | none => Except.error (imageOverlayFailLog om)
    | some ob =>
      match env.decodeImage ob with
      | none => Except.error (imageOverlayFailLog om)
      | some oi =>
        match env.alphaComposite img oi with
        | none => Except.error (imageOverlayFailLog om)
        | some img2 => imageOverlayLoop env img2 rest

/-- One image group (lines 646-670): decode the main bytes, run the overlay
loop, flatten to JPEG. -/
def imageGroup (env : ZEnv) (mainBytes : Nat) (ovs : List String) (mm : String) :
    Except String Nat :=
  match env.decodeImage mainBytes with
  | none => Except.error (imageFailLog mm)
  | some img0 => (imageOverlayLoop env img0 ovs).map env.encodeJpeg

/-- The video-main overlay chain (lines 684-719): read each overlay member
(failure fatal), decode it as an image (failure skips just that overlay,
logging line 695), run ffmpeg to composite it onto the current intermediate
(non-zero exit fatal), the output of step i feeding step i+1.  Returns the
final intermediate plus the skip diagnostics printed along the way. -/
def videoOverlayLoop (env : ZEnv) : Nat → List String → Except String Nat × List String
  | cur, [] => (Except.ok cur, [])
  | cur, om :: rest =>
    match env.readMember om with
    | none => (Except.error (videoReadFailLog om), [])
    | some ob =>
      match env.decodeImage ob with
      | none =>
        ((videoOverlayLoop env cur rest).1,
          videoSkipLog om :: (videoOverlayLoop env cur rest).2)
      | some oi =>
        match env.runFfmpeg cur oi with
        | none => (Except.error (ffmpegFailLog om), [])
        | some nxt => videoOverlayLoop env nxt rest

/-- Outcome of processing one zip payload: successful per-group commits,
diagnostics printed, and whether the run was fatally terminated
(`sys.exit(1)`). -/
structure ZipOutcome where
  saved : List (String × Nat)
  logs : List String
  fatal : Bool
deriving DecidableEq, Repr

def withLog (l : String) (z : ZipOutcome) : ZipOutcome :=
  ⟨z.saved, l :: z.logs, z.fatal⟩

def withLogs (ls : List String) (z : ZipOutcome) : ZipOutcome :=
  ⟨z.saved, ls ++ z.logs, z.fatal⟩

def withSave (s : String × Nat) (z : ZipOutcome) : ZipOutcome :=
  ⟨s :: z.saved, z.logs, z.fatal⟩

/-- `{prefix}[_{count}]{ext_inner}` (lines 638-641). -/
def outFilename (pfx : String) (count : Nat) (ext : String) : String :=
  (if count > 0 then pfx ++ "_" ++ toString count else pfx) ++ ext

/-- The loop over `mains.items()` (lines 628-734).  A failed main read logs
and continues; jpg/jpeg mains run the image pipeline (failures fatal); mp4
mains require ffmpeg (absence fatal) and run the chain; other main
extensions log and continue.  `count` increments only on successful
commits. -/
def groupsLoop (env : ZEnv) (ffmpegAvailable : Bool) (pfx : String)
    (ovmap : List (String × List String)) :
    List (String × String) → Nat → ZipOutcome
  | [], _ => ⟨[], [], false⟩
  | (b, mm) :: rest, count =>
    match env.readMember mm with
    | none => withLog (readFailLog mm) (groupsLoop env ffmpegAvailable pfx ovmap rest count)
    | some mainBytes =>
      let ext := memberExt mm
      let fname := outFilename pfx count ext
      let ovs := (lookupA b ovmap).getD []
      if ext = ".jpg" ∨ ext = ".jpeg" then
        match imageGroup env mainBytes ovs mm with
        | Except.error l => ⟨[], [l], true⟩
        | Except.ok outBytes =>
          match env.commit fname outBytes with
          | none => ⟨[], [commitFailLog fname], true⟩
          | some info =>
            withSave info (groupsLoop env ffmpegAvailable pfx ovmap rest (count + 1))
      else if ext = ".mp4" then
        if ffmpegAvailable = false then ⟨[], [ffmpegMissingLog], true⟩
        else
          let vres := videoOverlayLoop env mainBytes ovs
          match vres.1 with
          | Except.error l => ⟨[], vres.2 ++ [l], true⟩
          | Except.ok finalBytes =>
            match env.commit fname finalBytes with
            | none => ⟨[], vres.2 ++ [commitFailLog fname], true⟩
            | some info =>
              withSave info (withLogs vres.2 (groupsLoop env ffmpegAvailable pfx ovmap rest (count + 1)))
      else withLog (unsupportedLog mm) (groupsLoop env ffmpegAvailable pfx ovmap rest count)

/-- The whole zip branch of `download_and_process` (lines 592-735): collect
members into `mains`/`overlays`, log and return (non-fatally) when no main
was found, otherwise process the groups in order. -/
def processZip (env : ZEnv) (ffmpegAvailable : Bool) (pfx : String)
    (members : List String) : ZipOutcome :=
  let c := collectMembers members
  if c.1.isEmpty then ⟨[], [noMainLog], false⟩
  else groupsLoop env ffmpegAvailable pfx c.2 c.1 0

/-! ## Concrete environments used by the scenario theorems -/

/-- Benign environment: every step succeeds; zip reads return `5`. -/
def envC3 : ZEnv :=
  ⟨fun _ => some 5, fun n => some n, fun a b => some (a + b), id,
    fun a b => some (a + b), fun n c => some (n, c)⟩

/-- Environment for the missing-main scenario: only `a-main.jpg` is
readable; everything else succeeds. -/
def envA : ZEnv :=
  ⟨fun m => if m = "a-main.jpg" then some 1 else none, fun n => some n,
    fun a b => some (a + b), id, fun a b => some (a + b), fun n c => some (n, c)⟩

/-- Environment distinguishing the two duplicate mains by content. -/
def envB : ZEnv :=
  ⟨fun m => if m = "abc-main.jpg" then some 1
      else if m = "abc-mainB.jpg" then some 2 else none,
    fun n => some n, fun a b => some (a + b), id, fun a b => some (a + b),
    fun n c => some (n, c)⟩

/-- Environment in which the first video overlay (content `20`) fails to
decode as an image while everything else succeeds. -/
def envSkip : ZEnv :=
  ⟨fun m => if m = "v-main.mp4" then some 10
      else if m = "v-overlay.png" then some 20
      else if m = "v-overlayB.png" then some 30 else none,
    fun n => if n = 20 then none else some n, fun a b => some (a + b), id,
    fun a b => some (a + b), fun n c => some (n, c)⟩

/-- Environment in which the image overlay (content `2`) fails to decode. -/
def envBadOverlay : ZEnv :=
  ⟨fun m => if m = "a-main.jpg" then some 1
      else if m = "a-overlay.png" then some 2 else none,
    fun n => if n = 2 then none else some n, fun a b => some (a + b), id,
    fun a b => some (a + b), fun n c => some (n, c)⟩

/-! ## Helper lemmas -/

theorem lookupA_insertMain_self (l : List (String × String)) (b v : String) :
    lookupA b (insertMain l b v) = some v := by
  induction l with
  | nil => simp [insertMain, lookupA]
  | cons p rest ih =>
    obtain ⟨k, w⟩ := p
    by_cases hk : k = b
    · simp [insertMain, hk, lookupA]
    · simp [insertMain, hk, lookupA, ih]

theorem lookupA_insertOverlay_ne (ov : List (String × List String))
    (b k v : String) (hk : k ≠ b) :
    lookupA k (insertOverlay ov b v) = lookupA k ov := by
  induction ov with
  | nil => simp [insertOverlay, lookupA, Ne.symm hk]
  | cons p rest ih =>
    obtain ⟨a, ws⟩ := p
    by_cases ha : a = b
    · subst ha
      simp [insertOverlay, lookupA, Ne.symm hk]
    · simp [insertOverlay, ha, lookupA, ih]

theorem lookupA_eq_none_forall {β : Type} :
    ∀ (l : List (String × β)) (b : String),
      lookupA b l = none → ∀ p ∈ l, p.1 ≠ b := by
  intro l b
  induction l with
  | nil => intro _ p hp; cases hp
  | cons q rest ih =>
    intro h p hp
    obtain ⟨a, w⟩ := q
    by_cases ha : a = b
    · simp only [lookupA, if_pos ha] at h
      exact Option.noConfusion h
    · rcases List.mem_cons.mp hp with hpe | hpm
      · rw [hpe]; exact ha
      · simp only [lookupA, if_neg ha] at h
        exact ih h p hpm

theorem collectMembers_append_one (ms : List String) (x : String) :
    collectMembers (ms ++ [x]) = collectStep (collectMembers ms) x := by
  simp [collectMembers, List.foldl_append]

/-- The groups loop reads `ffmpegAvailable` only in the `.mp4` branch. -/
theorem groupsLoop_ffmpeg_indep (env : ZEnv) (pfx : String)
    (ov : List (String × List String)) (fa fb : Bool) :
    ∀ mains count, (∀ p ∈ mains, memberExt p.2 ≠ ".mp4") →
      groupsLoop env fa pfx ov mains count = groupsLoop env fb pfx ov mains count := by
  intro mains
  induction mains with
  | nil => intro count _; rfl
  | cons p rest ih =>
    intro count h
    obtain ⟨b, mm⟩ := p
    have hmm : memberExt mm ≠ ".mp4" := h (b, mm) (List.mem_cons_self _ _)
    have ht : ∀ q ∈ rest, memberExt q.2 ≠ ".mp4" :=
      fun q hq => h q (List.mem_cons_of_mem _ hq)
    simp only [groupsLoop]
    cases hr : env.readMember mm with
    | none => simp only [hr]; rw [ih _ ht]
    | some mb =>
      simp only [hr]
      by_cases h1 : memberExt mm = ".jpg" ∨ memberExt mm = ".jpeg"
      · rw [if_pos h1, if_pos h1]
        cases hig : imageGroup env mb ((lookupA b ov).getD []) mm with
        | error l => simp only [hig]
        | ok ob =>
          simp only [hig]
          cases hc : env.commit (outFilename pfx count (memberExt mm)) ob with
          | none => simp only [hc]
          | some info => simp only [hc]; rw [ih _ ht]
      · rw [if_neg h1, if_neg h1, if_neg hmm, if_neg hmm, ih _ ht]

/-- The groups loop reads the overlays map only through lookups at the
bases of its main groups. -/
theorem groupsLoop_ov_congr (env : ZEnv) (ff : Bool) (pfx : String) :
    ∀ mains (ov1 ov2 : List (String × List String)) count,
      (∀ p ∈ mains, lookupA p.1 ov1 = lookupA p.1 ov2) →
      groupsLoop env ff pfx ov1 mains count = groupsLoop env ff pfx ov2 mains count := by
  intro mains
  induction mains with
  | nil => intro ov1 ov2 count _; rfl
  | cons p rest ih =>
    intro ov1 ov2 count h
    obtain ⟨b, mm⟩ := p
    have hb : lookupA b ov1 = lookupA b ov2 := h (b, mm) (List.mem_cons_self _ _)
    have ht : ∀ q ∈ rest, lookupA q.1 ov1 = lookupA q.1 ov2 :=
      fun q hq => h q (List.mem_cons_of_mem _ hq)
    simp only [groupsLoop]
    cases hr : env.readMember mm with
    | none => simp only [hr]; rw [ih _ _ _ ht]
    | some mb =>
      simp only [hr, hb]
      by_cases h1 : memberExt mm = ".jpg" ∨ memberExt mm = ".jpeg"
      · rw [if_pos h1, if_pos h1]
        cases hig : imageGroup env mb ((lookupA b ov2).getD []) mm with
        | error l => simp only [hig]
        | ok ob =>
          simp only [hig]
          cases hc : env.commit (outFilename pfx count (memberExt mm)) ob with
          | none => simp only [hc]
          | some info => simp only [hc]; rw [ih _ _ _ ht]
      · rw [if_neg h1, if_neg h1]
        by_cases h2 : memberExt mm = ".mp4"
        · rw [if_pos h2, if_pos h2]
          by_cases h3 : ff = false
          · rw [if_pos h3, if_pos h3]
          · rw [if_neg h3, if_neg h3]
            cases hv : (videoOverlayLoop env mb ((lookupA b ov2).getD [])).1 with
            | error l => simp only [hv]
            | ok fbytes =>
              simp only [hv]
              cases hc : env.commit (outFilename pfx count (memberExt mm)) fbytes with
              | none => simp only [hc]
              | some info => simp only [hc]; rw [ih _ _ _ ht]
        · rw [if_neg h2, if_neg h2, ih _ _ _ ht]

/-! ## Claim C3 -/

/-- C3 counterexample: an archive whose only member is `abc-main.mp4` —
a video archive requiring no overlay compositing at all (its overlays map
is empty) — still terminates the run fatally when ffmpeg is absent.  So
the absence of the compositing tool is not fatal *only* when an archive
requiring overlay compositing is encountered. -/
theorem c3_ffmpeg_fatal_without_overlays :
    processZip envC3 false "p" ["abc-main.mp4"] = ⟨[], [ffmpegMissingLog], true⟩ ∧
    (collectMembers ["abc-main.mp4"]).2 = [] := by
  constructor <;> decide

/-- C3 amended: absence of ffmpeg is fatal exactly when a video (`.mp4`)
main member is processed, with or without overlays: when no main group has
the `.mp4` extension the whole outcome is independent of ffmpeg
availability, and the spec's scenario (`abc-main.mp4` plus
`abc-overlay.png`, no tool) terminates fatally with no commit attempted. -/
theorem c3_ffmpeg_fatality_scope :
    (∀ env pfx ms fa fb, (∀ p ∈ (collectMembers ms).1, memberExt p.2 ≠ ".mp4") →
      processZip env fa pfx ms = processZip env fb pfx ms) ∧
    processZip envC3 false "p" ["abc-main.mp4", "abc-overlay.png"] =
      ⟨[], [ffmpegMissingLog], true⟩ := by
  constructor
  · intro env pfx ms fa fb h
    unfold processZip
    by_cases he : (collectMembers ms).1.isEmpty
    · simp [he]
    · simp only [he, if_false, Bool.false_eq_true]
      exact groupsLoop_ffmpeg_indep env pfx (collectMembers ms).2 fa fb _ 0 h
  · decide

/-- Witness for C3's amended theorem: a jpg-only archive is insensitive to
ffmpeg availability. -/
theorem c3_ffmpeg_fatality_scope_witness :
    processZip envC3 true "p" ["a-main.jpg"] = processZip envC3 false "p" ["a-main.jpg"] :=
  c3_ffmpeg_fatality_scope.1 envC3 "p" ["a-main.jpg"] true false (by decide)

/-! ## Claim C5 -/

/-- C5: on the image-main path a failed overlay read, a failed overlay
decode, or a failed alpha-composite is fatal; on the video-main path an
overlay that fails to decode as an image is skipped (just that one) with
the chain continuing on the remaining overlays, while a failed
compositing-tool step is fatal.  The two closed conjuncts anchor this at
the `processZip` level: a bad image overlay makes the run fatal with
nothing committed, while a bad video overlay is skipped and the remaining
overlay is still applied. -/
theorem c5_overlay_failure_policy :
    (∀ (env : ZEnv) img ovs om, om ∈ ovs → env.readMember om = none →
      ∃ l, imageOverlayLoop env img ovs = Except.error l) ∧
    (∀ (env : ZEnv) img ovs om bts, om ∈ ovs → env.readMember om = some bts →
      env.decodeImage bts = none →
      ∃ l, imageOverlayLoop env img ovs = Except.error l) ∧
    (∀ (env : ZEnv) img om rest bts oi, env.readMember om = some bts →
      env.decodeImage bts = some oi → env.alphaComposite img oi = none →
      imageOverlayLoop env img (om :: rest) = Except.error (imageOverlayFailLog om)) ∧
    (∀ (env : ZEnv) cur pre post om bts, env.readMember om = some bts →
      env.decodeImage bts = none →
      (videoOverlayLoop env cur (pre ++ om :: post)).1 =
        (videoOverlayLoop env cur (pre ++ post)).1) ∧
    (∀ (env : ZEnv) cur om rest bts oi, env.readMember om = some bts →
      env.decodeImage bts = some oi → env.runFfmpeg cur oi = none →
      (videoOverlayLoop env cur (om :: rest)).1 = Except.error (ffmpegFailLog om)) ∧
    processZip envBadOverlay true "p" ["a-main.jpg", "a-overlay.png"] =
      ⟨[], [imageOverlayFailLog "a-overlay.png"], true⟩ ∧
    processZip envSkip true "p" ["v-main.mp4", "v-overlay.png", "v-overlayB.png"] =
      ⟨[("p.mp4", 40)], [videoSkipLog "v-overlay.png"], false⟩ := by
  refine ⟨?_, ?_, ?_, ?_, ?_, by decide, by decide⟩
  · intro env img ovs om hmem hread
    induction ovs generalizing img with
    | nil => cases hmem
    | cons hd tl ih =>
      rcases List.mem_cons.mp hmem with rfl | hmem
      · exact ⟨imageOverlayFailLog om, by simp [imageOverlayLoop, hread]⟩
      · simp only [imageOverlayLoop]
        cases hr : env.readMember hd with
        | none => exact ⟨imageOverlayFailLog hd, by simp only [hr]⟩
        | some hb =>
          simp only [hr]
          cases hd2 : env.decodeImage hb with
          | none => exact ⟨imageOverlayFailLog hd, by simp only [hd2]⟩
          | some hi =>
            simp only [hd2]
            cases hcc : env.alphaComposite img hi with
            | none => exact ⟨imageOverlayFailLog hd, by simp only [hcc]⟩
            | some img2 => simp only [hcc]; exact ih img2 hmem
  · intro env img ovs om bts hmem hread hdec
    induction ovs generalizing img with
    | nil => cases hmem
    | cons hd tl ih =>
      rcases List.mem_cons.mp hmem with rfl | hmem
      · exact ⟨imageOverlayFailLog om, by simp [imageOverlayLoop, hread, hdec]⟩
      · simp only [imageOverlayLoop]
        cases hr : env.readMember hd with
        | none => exact ⟨imageOverlayFailLog hd, by simp only [hr]⟩
        | some hb =>
          simp only [hr]
          cases hd2 : env.decodeImage hb with
          | none => exact ⟨imageOverlayFailLog hd, by simp only [hd2]⟩
          | some hi =>
            simp only [hd2]
            cases hcc : env.alphaComposite img hi with
            | none => exact ⟨imageOverlayFailLog hd, by simp only [hcc]⟩
            | some img2 => simp only [hcc]; exact ih img2 hmem
  · intro env img om rest bts oi hread hdec hcomp
    simp [imageOverlayLoop, hread, hdec, hcomp]
  · intro env cur pre post om bts hread hdec
    induction pre generalizing cur with
    | nil => simp [videoOverlayLoop, hread, hdec]
    | cons hd tl ih =>
      rw [List.cons_append, List.cons_append]
      simp only [videoOverlayLoop]
      cases hr : env.readMember hd with
      | none => simp only [hr]
      | some hb =>
        simp only [hr]
        cases hd2 : env.decodeImage hb with
        | none => simp only [hd2]; exact ih cur
        | some hi =>
          simp only [hd2]
          cases hf : env.runFfmpeg cur hi with
          | none => simp only [hf]
          | some nxt => simp only [hf]; exact ih nxt
  · intro env cur om rest bts oi hread hdec hff
    simp [videoOverlayLoop, hread, hdec, hff]

/-- Witness for C5: instantiates the first conjunct with a concrete
environment whose single overlay member cannot be read. -/
theorem c5_overlay_failure_policy_witness :
    ∃ l, imageOverlayLoop envA 1 ["missing.png"] = Except.error l :=
  c5_overlay_failure_policy.1 envA 1 ["missing.png"] "missing.png"
    (by decide) (by decide)

/-! ## Claim C8 -/

/-- C8 counterexample: in the archive `[a-main.jpg, b-overlay.png]` the
group `b` has an overlay but no Main member, yet the run produces no
diagnostic whatsoever (its log list is empty): the group is dropped
silently, not "skipped with a diagnostic" as claimed. -/
theorem c8_missing_main_silent_counterexample :
    lookupA "b" (collectMembers ["a-main.jpg", "b-overlay.png"]).1 = none ∧
    lookupA "b" (collectMembers ["a-main.jpg", "b-overlay.png"]).2 =
      some ["b-overlay.png"] ∧
    processZip envA true "p" ["a-main.jpg", "b-overlay.png"] =
      ⟨[("p.jpg", 1)], [], false⟩ := by
  refine ⟨by decide, by decide, by decide⟩

/-- C8 amended: a member group lacking a Main member is ignored silently
(adding an overlay-only member to an archive changes nothing in the
outcome — no output, no diagnostic, no fatality from it); only when no
group at all has a Main member does the record log one diagnostic, produce
no output, and let the run continue. -/
theorem c8_missing_main_policy :
    (∀ (env : ZEnv) ff pfx ms, (collectMembers ms).1 = [] →
      processZip env ff pfx ms = ⟨[], [noMainLog], false⟩) ∧
    (∀ (env : ZEnv) ff pfx ms x b, classifyMember x = some (b, Role.overlay) →
      lookupA b (collectMembers ms).1 = none →
      processZip env ff pfx (ms ++ [x]) = processZip env ff pfx ms) := by
  constructor
  · intro env ff pfx ms h
    unfold processZip
    simp [h]
  · intro env ff pfx ms x b hx hb
    have hc : collectMembers (ms ++ [x]) =
        ((collectMembers ms).1, insertOverlay (collectMembers ms).2 b x) := by
      rw [collectMembers_append_one]
      unfold collectStep
      rw [hx]
    unfold processZip
    rw [hc]
    by_cases he : (collectMembers ms).1.isEmpty
    · simp [he]
    · simp only [he, if_false, Bool.false_eq_true]
      exact groupsLoop_ov_congr env ff pfx _ _ _ 0
        (fun p hp => lookupA_insertOverlay_ne _ _ _ _
          (lookupA_eq_none_forall _ _ hb p hp))

/-- Witness for C8's amended theorem: the no-main branch of the first
conjunct at a concrete overlay-only archive. -/
theorem c8_missing_main_policy_witness :
    processZip envA true "p" ["b-overlay.png"] = ⟨[], [noMainLog], false⟩ :=
  c8_missing_main_policy.1 envA true "p" ["b-overlay.png"] (by decide)

/-! ## Claim C10 -/

/-- C10: `mains[base] = member` overwrites, so when two Main members share
a `base_name` the one enumerated last wins the group; processing the
archive `[abc-main.jpg, abc-mainB.jpg]` commits exactly one output whose
content comes from the later member (`2`, not `1`), with an empty log —
the earlier main is dropped silently with no output and no diagnostic. -/
theorem c10_duplicate_main_last_wins :
    (∀ ms m b, classifyMember m = some (b, Role.main) →
      lookupA b (collectMembers (ms ++ [m])).1 = some m) ∧
    processZip envB true "p" ["abc-main.jpg", "abc-mainB.jpg"] =
      ⟨[("p.jpg", 2)], [], false⟩ := by
  constructor
  · intro ms m b h
    rw [collectMembers_append_one]
    unfold collectStep
    rw [h]
    exact lookupA_insertMain_self _ _ _
  · decide

/-- Witness for C10: instantiates the first conjunct at a duplicate-main
pair. -/
theorem c10_duplicate_main_last_wins_witness :
    lookupA "abc" (collectMembers (["abc-main.jpg"] ++ ["abc-mainB.jpg"])).1 =
      some "abc-mainB.jpg" :=
  c10_duplicate_main_last_wins.1 ["abc-main.jpg"] "abc-mainB.jpg" "abc" (by decide)

/-! ## Destination sync (`save_or_upload_bytes`, lines 209-277)

The Google-Drive destination is modelled as a store of objects (id, name,
content) together with the in-memory `GDRIVE_EXISTING` index mapping names
to lists of object ids; the local destination as a name-to-content map.
Effectful steps are abstracted: `quotaOk`/`spaceOk` is the outcome of the
pre-flight capacity check (`False` models the check calling `sys.exit`),
`deleteOk` whether deleting a given object id succeeds, `uploadOk` whether
the upload call succeeds, `freshId` the id Drive assigns to the new object.
`Except.error ()` models termination of the whole run (`sys.exit(1)`). -/

inductive CMode where
  | skip
  | overwrite
  | new
deriving DecidableEq, Repr

inductive Dest where
  | localDisk
  | gdrive
deriving DecidableEq, Repr

structure GObj where
  id : Nat
  name : String
  content : Nat
deriving DecidableEq, Repr

structure GState where
  objects : List GObj
  existing : List (String × List Nat)
deriving DecidableEq, Repr

inductive CommitResult where
  | skipped (ids : List Nat)
  | uploaded (fid : Nat)
  | savedLocal (path : String)
deriving DecidableEq, Repr

/-- `GDRIVE_EXISTING.get(filename, [])` (line 225). -/
def lookupIds (ex : List (String × List Nat)) (n : String) : List Nat :=
  (lookupA n ex).getD []

/-- `GDRIVE_EXISTING.pop(filename, None)` (line 238). -/
def popName (ex : List (String × List Nat)) (n : String) : List (String × List Nat) :=
  ex.filter (fun p => p.1 ≠ n)

/-- `GDRIVE_EXISTING.setdefault(filename, []).append(fid)` (line 253). -/
def appendId : List (String × List Nat) → String → Nat → List (String × List Nat)
  | [], n, i => [(n, [i])]
  | (k, v) :: rest, n, i =>
    if k = n then (k, v ++ [i]) :: rest else (k, v) :: appendId rest n i

/-- The deletion loop of lines 231-236: delete each recorded id in order;
a failed delete exits the run (`none`). -/
def deleteLoop (deleteOk : Nat → Bool) : List GObj → List Nat → Option (List GObj)
  | objs, [] => some objs
  | objs, fid :: rest =>
    if deleteOk fid then deleteLoop deleteOk (objs.filter (fun o => o.id ≠ fid)) rest
    else none

/-- The `DESTINATION == 'gdrive'` branch of `save_or_upload_bytes`
(lines 213-257): quota check, conflict handling against the existing-name
index (`skip` returns without uploading; `overwrite` deletes every recorded
id then pops the index entry; `new` falls through), then upload, recording
the new id in the index. -/
def gdriveSave (mode : CMode) (quotaOk : Bool) (deleteOk : Nat → Bool)
    (uploadOk : Bool) (freshId : Nat) (gst : GState) (filename : String)
    (content : Nat) : Except Unit (CommitResult × GState) :=
  if quotaOk = false then Except.error ()
  else
    let ids := lookupIds gst.existing filename
    if ids ≠ [] ∧ mode = CMode.skip then Except.ok (CommitResult.skipped ids, gst)
    else
      let afterDel : Option GState :=
        if ids ≠ [] ∧ mode = CMode.overwrite then
          (deleteLoop deleteOk gst.objects ids).map
            (fun objs => ⟨objs, popName gst.existing filename⟩)
        else some gst
      match afterDel with
      | none => Except.error ()
      | some st1 =>
        if uploadOk = false then Except.error ()
        else Except.ok (CommitResult.uploaded freshId,
          ⟨st1.objects ++ [⟨freshId, filename, content⟩],
            appendId st1.existing filename freshId⟩)

/-- Strategy outcomes of `write_file_metadata` (lines 483-554):
`piexifAvailable` is whether the `piexif`/`PIL` import succeeds, `exifOk`
whether the EXIF load/dump/insert sequence succeeds, `mp4Ok` whether the
mutagen import and MP4 atom write succeed, `adsOk` whether the final
alternate-data-stream write succeeds. -/
structure MetaEnv where
  piexifAvailable : Bool
  exifOk : Bool
  mp4Ok : Bool
  adsOk : Bool
deriving DecidableEq, Repr

/-- The ADS fallback (lines 546-554): the only code path of
`write_file_metadata` that logs a failure. -/
def adsFallback (menv : MetaEnv) : Bool × List String :=
  if menv.adsOk then (true, [])
  else (false, ["Failed writing metadata into file or ADS"])

/-- `write_file_metadata` (lines 483-554) over the final extension of the
target path: JPEGs attempt EXIF GPS (returning `False` without any fallback
or log when latitude/longitude are absent; silently falling through to the
ADS fallback on import failure or any EXIF error), MP4s attempt a mutagen
atom (silently falling through on failure), everything else goes straight
to the ADS fallback.  The function never raises. -/
def write_file_metadata (menv : MetaEnv) (suffix : String) (hasLatLon : Bool) :
    Bool × List String :=
  if suffix = ".jpg" ∨ suffix = ".jpeg" then
    if menv.piexifAvailable = false then adsFallback menv
    else if hasLatLon = false then (false, [])
    else if menv.exifOk then (true, [])
    else adsFallback menv
  else if suffix = ".mp4" then
    if menv.mp4Ok then (true, [])
    else adsFallback menv
  else adsFallback menv

/-- `open(path, 'wb')` then write (line 456-459): replaces the content under
an existing name, creates the entry otherwise. -/
def writeLocal : List (String × Nat) → String → Nat → List (String × Nat)
  | [], n, c => [(n, c)]
  | (k, v) :: rest, n, c =>
    if k = n then (k, c) :: rest else (k, v) :: writeLocal rest n c

/-- The local branch of `save_or_upload_bytes` (lines 258-277): check disk
space, write the bytes unconditionally (no conflict handling of any kind),
then embed metadata best-effort — the embedding outcome never changes the
returned result.  Returns the result, the new file map, and the metadata
diagnostics. -/
def localSave (spaceOk : Bool) (menv : MetaEnv) (hasLatLon : Bool)
    (files : List (String × Nat)) (filename : String) (content : Nat) :
    Except Unit (CommitResult × List (String × Nat) × List String) :=
  if spaceOk = false then Except.error ()
  else
    Except.ok (CommitResult.savedLocal filename, writeLocal files filename content,
      (write_file_metadata menv (extOfName filename) hasLatLon).2)

/-- `save_or_upload_bytes` (lines 209-277): dispatch on the configured
destination. -/
def save_or_upload_bytes (dest : Dest) (mode : CMode) (quotaOk spaceOk : Bool)
    (deleteOk : Nat → Bool) (uploadOk : Bool) (freshId : Nat) (menv : MetaEnv)
    (hasLatLon : Bool) (gst : GState) (files : List (String × Nat))
    (filename : String) (content : Nat) :
    Except Unit (CommitResult × GState × List (String × Nat) × List String) :=
  match dest with
  | Dest.gdrive =>
    (gdriveSave mode quotaOk deleteOk uploadOk freshId gst filename content).map
      (fun rg => (rg.1, rg.2, files, []))
  | Dest.localDisk =>
    (localSave spaceOk menv hasLatLon files filename content).map
      (fun rl => (rl.1, gst, rl.2.1, rl.2.2))

/-! ## Helper lemmas for the destination model -/

theorem deleteLoop_all_ok (dok : Nat → Bool) :
    ∀ (ids : List Nat) (objs : List GObj), (∀ i ∈ ids, dok i = true) →
      ∃ objs2, deleteLoop dok objs ids = some objs2 ∧
        ∀ o ∈ objs2, o ∈ objs ∧ o.id ∉ ids := by
  intro ids
  induction ids with
  | nil =>
    intro objs _
    exact ⟨objs, rfl, fun o ho => ⟨ho, List.not_mem_nil o.id⟩⟩
  | cons i rest ih =>
    intro objs h
    have hi : dok i = true := h i (List.mem_cons_self _ _)
    obtain ⟨objs2, he, hp⟩ :=
      ih (objs.filter (fun o => o.id ≠ i)) (fun j hj => h j (List.mem_cons_of_mem _ hj))
    refine ⟨objs2, ?_, ?_⟩
    · simp only [deleteLoop, hi, if_true]
      exact he
    · intro o ho
      obtain ⟨hof, hni⟩ := hp o ho
      have hmem := List.mem_filter.mp hof
      refine ⟨hmem.1, ?_⟩
      intro hin
      rcases List.mem_cons.mp hin with he1 | he2
      · have hne2 : o.id ≠ i := by simpa using hmem.2
        exact hne2 he1
      · exact hni he2

theorem deleteLoop_fail (dok : Nat → Bool) :
    ∀ (ids : List Nat) (objs : List GObj) (i : Nat), i ∈ ids → dok i = false →
      deleteLoop dok objs ids = none := by
  intro ids
  induction ids with
  | nil => intro objs i hm _; cases hm
  | cons j rest ih =>
    intro objs i hm hf
    rcases List.mem_cons.mp hm with rfl | hm2
    · simp [deleteLoop, hf]
    · cases hj : dok j with
      | false => simp [deleteLoop, hj]
      | true =>
        simp only [deleteLoop, hj, if_true]
        exact ih _ i hm2 hf

theorem lookupA_popName_self (ex : List (String × List Nat)) (n : String) :
    lookupA n (popName ex n) = none := by
  induction ex with
  | nil => rfl
  | cons p rest ih =>
    obtain ⟨k, v⟩ := p
    by_cases hk : k = n
    · simp only [popName, List.filter_cons] at ih ⊢
      rw [if_neg (by simp [hk])]
      exact ih
    · simp only [popName, List.filter_cons] at ih ⊢
      rw [if_pos (by simp [hk])]
      simp only [lookupA]
      rw [if_neg hk]
      exact ih

theorem lookupA_appendId_absent (n : String) (i : Nat) :
    ∀ ex : List (String × List Nat), lookupA n ex = none →
      lookupA n (appendId ex n i) = some [i] := by
  intro ex
  induction ex with
  | nil => intro _; simp [appendId, lookupA]
  | cons p rest ih =>
    intro h
    obtain ⟨k, v⟩ := p
    by_cases hk : k = n
    · simp only [lookupA, if_pos hk] at h
      exact Option.noConfusion h
    · simp only [lookupA, if_neg hk] at h
      simp only [appendId, if_neg hk, lookupA]
      exact ih h

theorem writeLocal_filter :
    ∀ (l : List (String × Nat)) (n : String) (c : Nat),
      (l.filter (fun p => p.1 = n)).length ≤ 1 →
      (writeLocal l n c).filter (fun p => p.1 = n) = [(n, c)] := by
  intro l
  induction l with
  | nil => intro n c _; simp [writeLocal]
  | cons p rest ih =>
    intro n c h
    obtain ⟨k, v⟩ := p
    by_cases hk : k = n
    · subst hk
      rw [List.filter_cons, if_pos (by simp)] at h
      have hrest : rest.filter (fun p => p.1 = k) = [] := by
        cases hf : rest.filter (fun p => p.1 = k) with
        | nil => rfl
        | cons q qs => rw [hf] at h; simp at h
      simp only [writeLocal]
      simp [hrest]
    · rw [List.filter_cons, if_neg (by simp [hk])] at h
      simp only [writeLocal]
      rw [if_neg hk, List.filter_cons, if_neg (by simp [hk])]
      exact ih n c h

/-! ## Claim C2 -/

/-- All-success metadata environment. -/
def menvAll : MetaEnv := ⟨true, true, true, true⟩

/-- C2 counterexample: with conflict mode `skip` and the local destination,
committing `a.jpg` while `a.jpg` already exists (content `7`) performs the
write anyway — the stored content becomes `9` and the result is a local
save, not a skip.  The local branch of `save_or_upload_bytes` has no
conflict check at all. -/
theorem c2_local_skip_counterexample :
    save_or_upload_bytes Dest.localDisk CMode.skip true true (fun _ => true) true 0
        menvAll true ⟨[], []⟩ [("a.jpg", 7)] "a.jpg" 9 =
      Except.ok (CommitResult.savedLocal "a.jpg", ⟨[], []⟩, [("a.jpg", 9)], []) := by
  rfl

/-- C2 amended: the skip guarantee holds only for the remote destination:
there, an existing name makes `commit` return `Skipped` with the state
untouched and no upload performed; the local path performs no existence
check and always writes, whatever the conflict mode. -/
theorem c2_skip_remote_only :
    (∀ (quotaOk spaceOk : Bool) (dok : Nat → Bool) (uok : Bool) (fid : Nat)
        (menv : MetaEnv) (h : Bool) (gst : GState) (files : List (String × Nat))
        (fname : String) (c : Nat),
      quotaOk = true → lookupIds gst.existing fname ≠ [] →
      save_or_upload_bytes Dest.gdrive CMode.skip quotaOk spaceOk dok uok fid menv h
          gst files fname c =
        Except.ok (CommitResult.skipped (lookupIds gst.existing fname), gst, files, [])) ∧
    (∀ (mode : CMode) (quotaOk : Bool) (dok : Nat → Bool) (uok : Bool) (fid : Nat)
        (menv : MetaEnv) (h : Bool) (gst : GState) (files : List (String × Nat))
        (fname : String) (c : Nat),
      save_or_upload_bytes Dest.localDisk mode quotaOk true dok uok fid menv h
          gst files fname c =
        Except.ok (CommitResult.savedLocal fname, gst, writeLocal files fname c,
          (write_file_metadata menv (extOfName fname) h).2)) := by
  constructor
  · intro quotaOk spaceOk dok uok fid menv h gst files fname c hq hne
    subst hq
    simp only [save_or_upload_bytes, gdriveSave]
    rw [if_neg (by simp)]
    rw [if_pos ⟨hne, by trivial⟩]
    rfl
  · intro mode quotaOk dok uok fid menv h gst files fname c
    simp only [save_or_upload_bytes, localSave]
    rw [if_neg (by simp)]
    rfl

/-- Witness for C2's amended theorem: concrete remote skip. -/
theorem c2_skip_remote_only_witness :
    save_or_upload_bytes Dest.gdrive CMode.skip true true (fun _ => true) true 7
        menvAll true ⟨[⟨3, "a.jpg", 5⟩], [("a.jpg", [3])]⟩ [] "a.jpg" 9 =
      Except.ok (CommitResult.skipped
        (lookupIds (GState.mk [⟨3, "a.jpg", 5⟩] [("a.jpg", [3])]).existing "a.jpg"),
        ⟨[⟨3, "a.jpg", 5⟩], [("a.jpg", [3])]⟩, [], []) :=
  c2_skip_remote_only.1 true true (fun _ => true) true 7 menvAll true
    ⟨[⟨3, "a.jpg", 5⟩], [("a.jpg", [3])]⟩ [] "a.jpg" 9 rfl (by decide)

/-! ## Claim C6 -/

/-- C6: with conflict mode `overwrite` and an existing name at the remote
destination, every object id recorded for that name is deleted before the
new bytes are uploaded, so that afterwards exactly one object carries that
name and it holds the new content, and the index records exactly the fresh
id (given that the index covers every object stored under the name); a
delete failure terminates the run; and on the local path the write leaves
exactly one file entry under the name, holding the new bytes. -/
theorem c6_overwrite_semantics :
    (∀ (spaceOk : Bool) (dok : Nat → Bool) (fid : Nat) (menv : MetaEnv) (h : Bool)
        (gst : GState) (files : List (String × Nat)) (fname : String) (c : Nat),
      lookupIds gst.existing fname ≠ [] →
      (∀ i ∈ lookupIds gst.existing fname, dok i = true) →
      (∀ o ∈ gst.objects, o.name = fname → o.id ∈ lookupIds gst.existing fname) →
      ∃ gst2,
        save_or_upload_bytes Dest.gdrive CMode.overwrite true spaceOk dok true fid menv h
            gst files fname c = Except.ok (CommitResult.uploaded fid, gst2, files, []) ∧
        gst2.objects.filter (fun o => o.name = fname) = [⟨fid, fname, c⟩] ∧
        lookupIds gst2.existing fname = [fid]) ∧
    (∀ (spaceOk : Bool) (dok : Nat → Bool) (uok : Bool) (fid : Nat) (menv : MetaEnv)
        (h : Bool) (gst : GState) (files : List (String × Nat)) (fname : String)
        (c : Nat) (i : Nat),
      i ∈ lookupIds gst.existing fname → dok i = false →
      save_or_upload_bytes Dest.gdrive CMode.overwrite true spaceOk dok uok fid menv h
          gst files fname c = Except.error ()) ∧
    (∀ (quotaOk : Bool) (dok : Nat → Bool) (uok : Bool) (fid : Nat) (menv : MetaEnv)
        (h : Bool) (gst : GState) (files : List (String × Nat)) (fname : String)
        (c : Nat),
      (files.filter (fun p => p.1 = fname)).length ≤ 1 →
      ∃ files2 logs,
        save_or_upload_bytes Dest.localDisk CMode.overwrite quotaOk true dok uok fid menv h
            gst files fname c =
          Except.ok (CommitResult.savedLocal fname, gst, files2, logs) ∧
        files2.filter (fun p => p.1 = fname) = [(fname, c)]) := by
  refine ⟨?_, ?_, ?_⟩
  · intro spaceOk dok fid menv h gst files fname c hne hdel hcov
    obtain ⟨objs2, hdl, hobjs⟩ := deleteLoop_all_ok dok (lookupIds gst.existing fname)
      gst.objects hdel
    refine ⟨⟨objs2 ++ [⟨fid, fname, c⟩], appendId (popName gst.existing fname) fname fid⟩,
      ?_, ?_, ?_⟩
    · simp only [save_or_upload_bytes, gdriveSave]
      rw [if_neg (by simp)]
      rw [if_neg (by simp)]
      rw [if_pos ⟨hne, by trivial⟩, hdl]
      rfl
    · rw [List.filter_append]
      have h1 : objs2.filter (fun o => o.name = fname) = [] := by
        rw [List.filter_eq_nil_iff]
        intro o ho
        obtain ⟨hoo, hni⟩ := hobjs o ho
        simp only [decide_eq_true_eq]
        intro heq
        exact hni (hcov o hoo heq)
      rw [h1]
      simp
    · show (lookupA fname (appendId (popName gst.existing fname) fname fid)).getD [] = [fid]
      rw [lookupA_appendId_absent fname fid _ (lookupA_popName_self _ _)]
      rfl
  · intro spaceOk dok uok fid menv h gst files fname c i hi hf
    have hne : lookupIds gst.existing fname ≠ [] := List.ne_nil_of_mem hi
    simp only [save_or_upload_bytes, gdriveSave]
    rw [if_neg (by simp)]
    rw [if_neg (by simp)]
    rw [if_pos ⟨hne, by trivial⟩, deleteLoop_fail dok _ _ i hi hf]
    rfl
  · intro quotaOk dok uok fid menv h gst files fname c hlen
    refine ⟨writeLocal files fname c, (write_file_metadata menv (extOfName fname) h).2,
      ?_, writeLocal_filter files fname c hlen⟩
    simp only [save_or_upload_bytes, localSave]
    rw [if_neg (by simp)]
    rfl

/-- Witness for C6: concrete overwrite over a store holding two stale
objects under the name. -/
theorem c6_overwrite_semantics_witness :
    ∃ gst2,
      save_or_upload_bytes Dest.gdrive CMode.overwrite true true (fun _ => true) true 9
          menvAll true ⟨[⟨1, "a.jpg", 5⟩, ⟨2, "a.jpg", 6⟩], [("a.jpg", [1, 2])]⟩ []
          "a.jpg" 42 = Except.ok (CommitResult.uploaded 9, gst2, [], []) ∧
      gst2.objects.filter (fun o => o.name = "a.jpg") = [⟨9, "a.jpg", 42⟩] ∧
      lookupIds gst2.existing "a.jpg" = [9] :=
  c6_overwrite_semantics.1 true (fun _ => true) 9 menvAll true
    ⟨[⟨1, "a.jpg", 5⟩, ⟨2, "a.jpg", 6⟩], [("a.jpg", [1, 2])]⟩ [] "a.jpg" 42
    (by decide) (by decide) (by decide)

/-! ## Claim C9 -/

/-- Metadata environment in which the EXIF strategy fails but the ADS
fallback succeeds. -/
def menvExifFail : MetaEnv := ⟨true, false, true, true⟩

/-- C9 counterexample: for a `.jpg` with coordinates, when the EXIF
embedding attempt fails (`exifOk = false`) but the ADS fallback succeeds,
`write_file_metadata` reports overall success with an empty log — the EXIF
failure was swallowed by `except: pass` and never individually logged, so
"each embedding failure is individually logged" is false. -/
theorem c9_metadata_failure_unlogged :
    write_file_metadata menvExifFail ".jpg" true = (true, []) ∧
    menvExifFail.exifOk = false := by
  constructor <;> decide

/-- C9 amended: the metadata-embedding call never aborts the run — the
local commit succeeds and reports the saved file regardless of every
embedding outcome — but failures are not each individually logged: the
only failure ever logged is that of the final ADS fallback (a nonempty log
implies `adsOk = false`); the format-specific strategy failures are
silently swallowed. -/
theorem c9_metadata_nonfatal :
    (∀ (mode : CMode) (quotaOk : Bool) (dok : Nat → Bool) (uok : Bool) (fid : Nat)
        (menv : MetaEnv) (h : Bool) (gst : GState) (files : List (String × Nat))
        (fname : String) (c : Nat),
      save_or_upload_bytes Dest.localDisk mode quotaOk true dok uok fid menv h
          gst files fname c =
        Except.ok (CommitResult.savedLocal fname, gst, writeLocal files fname c,
          (write_file_metadata menv (extOfName fname) h).2)) ∧
    (∀ (menv : MetaEnv) (suffix : String) (h : Bool),
      (write_file_metadata menv suffix h).2 ≠ [] → menv.adsOk = false) := by
  constructor
  · intro mode quotaOk dok uok fid menv h gst files fname c
    simp only [save_or_upload_bytes, localSave]
    rw [if_neg (by simp)]
    rfl
  · intro menv suffix h hne
    cases had : menv.adsOk with
    | false => rfl
    | true =>
      exfalso
      apply hne
      unfold write_file_metadata adsFallback
      split_ifs <;> simp_all

/-- Witness for C9's amended theorem: a nonempty metadata log forces a
failed ADS fallback, at the all-fail environment. -/
theorem c9_metadata_nonfatal_witness :
    (MetaEnv.mk true false true false).adsOk = false :=
  c9_metadata_nonfatal.2 ⟨true, false, true, false⟩ ".jpg" true (by decide)

/-! ## Records, the `new`-mode pre-filter, the main loop and its report

`Record` carries the fields the loop reads.  `url` models
`rec.get('Media Download Url')` (`none` = missing/null; the loop also skips
the falsy empty string).  `pfx` is the record's `_prefix`. -/

structure Record where
  date : String
  mediaType : String
  location : String
  url : Option String
  pfx : String
deriving DecidableEq, Repr

/-- `name.startswith(prefix)` over characters. -/
def startsWithPy (name pre : String) : Bool :=
  pre.toList.isPrefixOf name.toList

/-- The `CONFLICT_MODE == 'new'` pre-filter (lines 415-426): drop every
record whose `_prefix` is a prefix of some existing destination name. -/
def newFilterRecords (existingNames : List String) (records : List Record) :
    List Record :=
  records.filter (fun r => ! existingNames.any (fun n => startsWithPy n r.pfx))

/-- `all_saved[url] = saved`: Python dict assignment (replace in place or
append). -/
def reportInsert :
    List (String × Option (List String)) → String → Option (List String) →
      List (String × Option (List String))
  | [], u, v => [(u, v)]
  | (k, w) :: rest, u, v =>
    if k = u then (k, v) :: rest else (k, w) :: reportInsert rest u v

/-- The download loop body (lines 767-773): skip records whose URL is
missing or empty, otherwise process the record and store the outcome in the
report keyed by the URL.  `process` abstracts `download_and_process`. -/
def runLoop (process : Record → Option (List String)) :
    List Record → List (String × Option (List String)) →
      List (String × Option (List String))
  | [], rep => rep
  | r :: rest, rep =>
    match r.url with
    | none => runLoop process rest rep
    | some u =>
      if u = "" then runLoop process rest rep
      else runLoop process rest (reportInsert rep u (process r))

/-- The main loop of `extract_memories.py` (lines 760-773): it does NOT
iterate over all records — it first filters to `Media Type == "Video"` and
then drops the first 137 entries (`videos[137:]`), a debugging/resume
leftover. -/
def scriptRun (process : Record → Option (List String)) (records : List Record) :
    List (String × Option (List String)) :=
  runLoop process ((records.filter (fun r => r.mediaType = "Video")).drop 137) []

/-- The main loop of `extract_memories_only_local.py` (lines 389-395),
which iterates over every record. -/
def localScriptRun (process : Record → Option (List String))
    (records : List Record) : List (String × Option (List String)) :=
  runLoop process records []

/-! ## Claim C1 -/

def recImage : Record := ⟨"2020-01-01", "Image", "loc", some "http://u", "pfx0"⟩

def recVideo : Record := ⟨"2020-01-02", "Video", "loc", some "http://v", "pfx1"⟩

/-- C1: evidence that the gdrive script's main loop violates the claim.
`recImage` and `recVideo` both carry non-null download URLs, yet
`scriptRun` — which processes only `videos[137:]` — produces an empty
report for them (no entry for either URL, and the records are never
processed), whatever the record processor does.  The companion
`extract_memories_only_local.py` loop, modelled by `localScriptRun`,
behaves as the claim states, reporting the image record under its URL. -/
theorem c1_main_loop_filters_records :
    recImage.url = some "http://u" ∧ recVideo.url = some "http://v" ∧
    (∀ process, scriptRun process [recImage] = []) ∧
    (∀ process, scriptRun process [recVideo] = []) ∧
    (∀ process, scriptRun process [recImage, recVideo] = []) ∧
    (∀ process, localScriptRun process [recImage] =
      [("http://u", process recImage)]) := by
  refine ⟨rfl, rfl, fun process => rfl, fun process => rfl, fun process => rfl,
    fun process => rfl⟩

/-! ## Claim C7 -/

theorem reportInsert_mem :
    ∀ (rep : List (String × Option (List String))) (s : String)
      (x : Option (List String)) (u : String) (w : Option (List String)),
      (u, w) ∈ reportInsert rep s x → u = s ∨ ∃ w2, (u, w2) ∈ rep := by
  intro rep
  induction rep with
  | nil =>
    intro s x u w h
    have h2 := List.mem_singleton.mp h
    exact Or.inl (congrArg Prod.fst h2)
  | cons p rest ih =>
    intro s x u w h
    obtain ⟨k, w0⟩ := p
    by_cases hk : k = s
    · rw [reportInsert, if_pos hk] at h
      rcases List.mem_cons.mp h with he | hm
      · exact Or.inl (hk ▸ congrArg Prod.fst he)
      · exact Or.inr ⟨w, List.mem_cons_of_mem _ hm⟩
    · rw [reportInsert, if_neg hk] at h
      rcases List.mem_cons.mp h with he | hm
      · refine Or.inr ⟨w0, ?_⟩
        rw [show u = k from congrArg Prod.fst he]
        exact List.mem_cons_self _ _
      · rcases ih s x u w hm with h1 | ⟨w2, h2⟩
        · exact Or.inl h1
        · exact Or.inr ⟨w2, List.mem_cons_of_mem _ h2⟩

/-- Every entry of the report produced by the download loop is keyed by the
URL of some record in the iterated list. -/
theorem runLoop_mem (process : Record → Option (List String)) :
    ∀ (recs : List Record) (rep : List (String × Option (List String)))
      (u : String) (v : Option (List String)),
      (u, v) ∈ runLoop process recs rep →
      (∃ r ∈ recs, r.url = some u) ∨ ∃ w, (u, w) ∈ rep := by
  intro recs
  induction recs with
  | nil => intro rep u v h; exact Or.inr ⟨v, h⟩
  | cons r rest ih =>
    intro rep u v h
    simp only [runLoop] at h
    cases hu : r.url with
    | none =>
      simp only [hu] at h
      rcases ih rep u v h with ⟨r2, hr2, hu2⟩ | hin
      · exact Or.inl ⟨r2, List.mem_cons_of_mem _ hr2, hu2⟩
      · exact Or.inr hin
    | some s =>
      simp only [hu] at h
      by_cases hs : s = ""
      · rw [if_pos hs] at h
        rcases ih rep u v h with ⟨r2, hr2, hu2⟩ | hin
        · exact Or.inl ⟨r2, List.mem_cons_of_mem _ hr2, hu2⟩
        · exact Or.inr hin
      · rw [if_neg hs] at h
        rcases ih _ u v h with ⟨r2, hr2, hu2⟩ | ⟨w, hw⟩
        · exact Or.inl ⟨r2, List.mem_cons_of_mem _ hr2, hu2⟩
        · rcases reportInsert_mem rep s (process r) u w hw with he | ⟨w2, h2⟩
          · exact Or.inl ⟨r, List.mem_cons_self _ _, by rw [hu, he]⟩
          · exact Or.inr ⟨w2, h2⟩

/-- C7: under conflict mode `new` the pre-filter, applied to the whole
batch before any per-item work, drops every record whose prefix is a
prefix of some existing destination name; and the report of any subsequent
run contains only entries keyed by URLs of records that survived into the
iterated list — so a dropped record contributes no entry. -/
theorem c7_new_mode_prefilter :
    (∀ (existingNames : List String) (records : List Record) (r : Record),
      (∃ n ∈ existingNames, startsWithPy n r.pfx = true) →
      r ∉ newFilterRecords existingNames records) ∧
    (∀ (process : Record → Option (List String)) (existingNames : List String)
        (records : List Record) (u : String) (v : Option (List String)),
      (u, v) ∈ scriptRun process (newFilterRecords existingNames records) →
      ∃ r ∈ newFilterRecords existingNames records, r.url = some u) := by
  constructor
  · intro ex records r hex hmem
    obtain ⟨n, hn, hsw⟩ := hex
    have hp := (List.mem_filter.mp hmem).2
    simp only [Bool.not_eq_true', List.any_eq_false] at hp
    exact absurd hsw (by simpa using hp n hn)
  · intro process ex records u v h
    rcases runLoop_mem process _ [] u v h with ⟨r2, hr2, hu2⟩ | ⟨w, hw⟩
    · refine ⟨r2, ?_, hu2⟩
      have h1 := List.mem_of_mem_drop hr2
      exact (List.mem_filter.mp h1).1
    · cases hw

/-- Witness for C7: a record whose prefix starts an existing name is
dropped by the pre-filter. -/
theorem c7_new_mode_prefilter_witness :
    recImage ∉ newFilterRecords ["pfx0_file.jpg"] [recImage] :=
  c7_new_mode_prefilter.1 ["pfx0_file.jpg"] [recImage] recImage
    ⟨"pfx0_file.jpg", by decide, by decide⟩

end SnapExtract
